import Mathlib

/-!
Verification development for the `error_level` crate: a derive macro that
synthesizes an `error_level : Option log::Level` dispatch function for an
enum, from per-variant `#[report(..)]` annotations and payload shapes.

The definitions below are a shallow embedding of
`error_level_derive/src/lib.rs` (the classifier and code generator) and of
`src/lib.rs` (the runtime `log_error` helper).  Rust panics are modelled as
`Except.error` carrying the panic message; the `syn` AST is modelled by the
structures the code actually inspects.
-/

namespace ErrLevel

/-- A source location (byte range), standing in for `proc_macro2::Span`. -/
structure Span where
  lo : Nat
  hi : Nat
  deriving DecidableEq, Repr

/-- Model of `Span::join`: the covering range (the span-locations behaviour of
`proc_macro2`). -/
def Span.join (a b : Span) : Option Span :=
  some ⟨min a.lo b.lo, max a.hi b.hi⟩

/-- Model of `Span::call_site()`, the span produced when spanning an empty
token stream (e.g. `Option::<&Ident>::None.span()`). -/
def call_site : Span := ⟨0, 0⟩

/-- Model of `syn::Ident`: its string and its span. -/
structure Ident where
  name : String
  span : Span
  deriving DecidableEq, Repr

/-- One segment of a `syn::Path`.  The code observes a segment's generic
arguments only through `PathArguments::is_none`, so we keep their count. -/
structure PathSeg where
  ident : Ident
  argCount : Nat
  span : Span
  deriving DecidableEq, Repr

/-- Model of `syn::Path`. -/
structure SynPath where
  leadingColon : Bool
  segments : List PathSeg
  deriving DecidableEq, Repr

/-- Model of `syn::Path::get_ident`: `Some` iff there is no leading colon,
exactly one segment, and that segment carries no generic arguments. -/
def SynPath.get_ident (p : SynPath) : Option Ident :=
  match p.leadingColon, p.segments with
  | false, [s] => if s.argCount = 0 then some s.ident else none
  | _, _ => none

/-- Model of `syn::Type`, restricted to the shapes `is_valid_inner`
distinguishes: path types, references, and the catch-all shapes (tuples,
arrays, anything else) which only contribute their span. -/
inductive SynType where
  | path (p : SynPath)
  | reference (elem : SynType) (span : Span)
  | tuple (span : Span)
  | array (span : Span)
  | other (span : Span)
  deriving DecidableEq, Repr

/-- Model of `syn::Meta` as far as the code inspects it: a path, a list
`path(nested, ...)`, or a name-value pair.  Nested arguments are either a
structured meta item (we keep its path: the code reads nothing deeper) or a
literal. -/
inductive NestedMetaShape where
  | meta (p : SynPath)
  | lit (span : Span)
  deriving DecidableEq, Repr

inductive Meta where
  | path (p : SynPath)
  | list (p : SynPath) (nested : List NestedMetaShape)
  | nameValue (p : SynPath)
  deriving DecidableEq, Repr

/-- Model of `syn::Meta::path()`. -/
def Meta.metaPath : Meta → SynPath
  | .path p => p
  | .list p _ => p
  | .nameValue p => p

/-- Model of `syn::Fields`: named (struct-style), unnamed (tuple-style), or
unit. -/
inductive Fields where
  | named (tys : List SynType)
  | unnamed (tys : List SynType)
  | unit
  deriving DecidableEq, Repr

/-- Model of `syn::Variant`: identifier, attributes (already parsed to
`Meta`, i.e. `attr.parse_meta()` succeeded), fields, and the variant's own
span. -/
structure Variant where
  ident : Ident
  attrs : List Meta
  fields : Fields
  span : Span
  deriving DecidableEq, Repr

/-- The six recognised annotation keywords (`LevelVariant` in the source). -/
inductive LevelVariant where
  | no
  | trace
  | debug
  | info
  | warn
  | error
  deriving DecidableEq, Repr

/-- `Level`: a parsed keyword, or a parse error anchored at the keyword's
span. -/
inductive Level where
  | parsed (l : LevelVariant)
  | error (span : Span)
  deriving DecidableEq, Repr

/-- Embedding of `Level::from_ident`: the six case-sensitive keywords map to
their `LevelVariant`; anything else becomes `Level::Error(id.span())`. -/
def Level.from_ident (id : Ident) : Level :=
  match id.name with
  | "no" => .parsed .no
  | "trace" => .parsed .trace
  | "debug" => .parsed .debug
  | "info" => .parsed .info
  | "warn" => .parsed .warn
  | "error" => .parsed .error
  | _ => .error id.span

/-- The runtime `log::Level` vocabulary. -/
inductive LogLevel where
  | trace
  | debug
  | info
  | warn
  | error
  deriving DecidableEq, Repr

/-- The expression a `Level` expands to under `ToTokens`: `None`,
`Some(log::Level::_)`, or a span-anchored `compile_error!`. -/
inductive GenLevelExpr where
  | noReport
  | someLevel (l : LogLevel)
  | compileErr (span : Span) (msg : String)
  deriving DecidableEq, Repr

/-- The message of the `compile_error!` emitted for an unknown keyword. -/
def invalid_level_msg : String :=
  "invalid report level, use: no, trace, debug, info, warn or error"

/-- Embedding of `impl ToTokens for Level`. -/
def Level.to_tokens : Level → GenLevelExpr
  | .parsed .no => .noReport
  | .parsed .trace => .someLevel .trace
  | .parsed .debug => .someLevel .debug
  | .parsed .info => .someLevel .info
  | .parsed .warn => .someLevel .warn
  | .parsed .error => .someLevel .error
  | .error sp => .compileErr sp invalid_level_msg

/-- Embedding of `has_level_path`: the meta list's path is the single ident
`report`. -/
def has_level_path (p : SynPath) : Bool :=
  match p.get_ident with
  | some id => id.name = "report"
  | none => false

/-- Model of `Option::unwrap`: panics (as `Except.error`) on `None`. -/
def optUnwrap : Option α → Except String α
  | some a => .ok a
  | none => .error "called `Option::unwrap()` on a `None` value"

/-- Embedding of the inner `unwrap_meta` of `with_log_level`: a nested
argument must be a structured meta item, a literal panics. -/
def unwrap_meta : NestedMetaShape → Except String SynPath
  | .meta p => .ok p
  | .lit _ =>
      .error "nested argument list should not be a rust literal but a structured meta item"

/-- The attribute loop of `with_log_level`: scan the attributes in order;
a `Meta::List` whose path is `report` is consumed (taking the first nested
argument, unwrapping it to a meta item, and parsing its ident); every other
attribute is skipped. -/
def with_log_level_loop : List Meta → Except String (Option Level)
  | [] => .ok none
  | .list p nested :: rest =>
      if has_level_path p then do
        let n ← optUnwrap nested.head?
        let mp ← unwrap_meta n
        let id ← optUnwrap mp.get_ident
        .ok (some (Level.from_ident id))
      else
        with_log_level_loop rest
  | .path _ :: rest => with_log_level_loop rest
  | .nameValue _ :: rest => with_log_level_loop rest

/-- Embedding of `with_log_level`. -/
def with_log_level (v : Variant) : Except String (Option Level) :=
  with_log_level_loop v.attrs

/-- Span of the `Option<&Ident>` returned by `Path::get_ident`, as taken by
`.span()` (a `None` spans an empty token stream: call site). -/
def optIdentSpan : Option Ident → Span
  | some id => id.span
  | none => call_site

/-- Embedding of the inner `handle_path` of `is_valid_inner`. -/
def handle_path (p : SynPath) : Span :=
  if p.segments.length > 1 then
    match p.segments.head?, p.segments.getLast? with
    | some s1, some s2 => (s1.span.join s2.span).getD s2.span
    | _, _ => call_site
  else
    optIdentSpan p.get_ident

/-- Embedding of `is_valid_inner`: `Ok` (eligible, with a representative
span) for a path type, or a reference whose referent is a path type;
`Err` (ineligible, with the offending span) for everything else. -/
def is_valid_inner : SynType → Except Span Span
  | .path p => .ok (handle_path p)
  | .reference elem rspan =>
      match elem with
      | .path p => .ok (handle_path p)
      | _ => .error rspan
  | .tuple sp => .error sp
  | .array sp => .error sp
  | .other sp => .error sp

/-- Embedding of `has_inner`: the type of the first unnamed field, if any. -/
def has_inner (v : Variant) : Option SynType :=
  match v.fields with
  | .unnamed tys => tys.head?
  | _ => none

/-- A marked (annotated) variant, as collected by `extract_variants`. -/
structure Marked where
  level : Level
  variant_id : Ident
  deriving DecidableEq, Repr

/-- An unmarked variant with an eligible payload, as collected by
`extract_variants`. -/
structure UnMarked where
  inner_span : Span
  variant_id : Ident
  deriving DecidableEq, Repr

/-- A span-anchored `compile_error!` diagnostic. -/
structure Diag where
  span : Span
  msg : String
  deriving DecidableEq, Repr

/-- Diagnostic message for an unmarked variant with an ineligible payload. -/
def ineligible_msg : String :=
  "Needs \x27report\x27 attribute, variant content can not have an \x27ErrorLevel\x27 trait implementation"

/-- Diagnostic message for an unmarked variant with no payload. -/
def missing_msg : String := "Needs \x27report\x27 attribute"

/-- The four possible outcomes of the per-variant branch of
`extract_variants`. -/
inductive Classification where
  | explicitNoPayload (level : Level)
  | explicitWithPayload (level : Level)
  | delegated (inner_span : Span)
  | invalid (d : Diag)
  deriving DecidableEq, Repr

/-- The loop body of `extract_variants`, for one variant: annotated variants
keep their level (with or without payload); unannotated variants with an
eligible payload delegate; everything else yields a diagnostic.  The result
is in `Except` because `with_log_level` can panic. -/
def classify_variant (v : Variant) : Except String Classification := do
  match ← with_log_level v with
  | some level =>
      if (has_inner v).isSome then
        .ok (.explicitWithPayload level)
      else
        .ok (.explicitNoPayload level)
  | none =>
      match has_inner v with
      | some inner =>
          match is_valid_inner inner with
          | .ok sp => .ok (.delegated sp)
          | .error sp => .ok (.invalid ⟨sp, ineligible_msg⟩)
      | none => .ok (.invalid ⟨v.span, missing_msg⟩)

/-- The four accumulators of `extract_variants`. -/
structure ExtractOut where
  marked_no_inn : List Marked
  marked_w_inn : List Marked
  unmarked : List UnMarked
  errs : List Diag
  deriving DecidableEq, Repr

/-- How one classified variant extends the accumulators (the four `push`
sites of `extract_variants`, order-preserving). -/
def consClass (v : Variant) (c : Classification) (r : ExtractOut) : ExtractOut :=
  match c with
  | .explicitNoPayload level => { r with marked_no_inn := ⟨level, v.ident⟩ :: r.marked_no_inn }
  | .explicitWithPayload level => { r with marked_w_inn := ⟨level, v.ident⟩ :: r.marked_w_inn }
  | .delegated sp => { r with unmarked := ⟨sp, v.ident⟩ :: r.unmarked }
  | .invalid d => { r with errs := d :: r.errs }

/-- Embedding of `extract_variants`: classify each variant in declaration
order, accumulating the four lists; a panic anywhere aborts the pass. -/
def extract_variants : List Variant → Except String ExtractOut
  | [] => .ok ⟨[], [], [], []⟩
  | v :: rest => do
      let c ← classify_variant v
      let r ← extract_variants rest
      .ok (consClass v c r)

/-- One arm of the generated `match self`: either a fixed level (for a
marked variant, with or without a payload pattern `(_)`) or a delegation
`inn_err.error_level()` (for an unmarked variant). -/
inductive Arm where
  | fixed (variant_id : Ident) (hasPayload : Bool) (level : GenLevelExpr) (span : Span)
  | delegate (variant_id : Ident) (span : Span)
  deriving DecidableEq, Repr

/-- The variant name an arm's pattern matches on. -/
def Arm.name : Arm → String
  | .fixed id _ _ _ => id.name
  | .delegate id _ => id.name

/-- The generated `impl ErrorLevel for Name`: the enum's name, the match
arms in emitted order, and the trailing `compile_error!` diagnostics. -/
structure GenImpl where
  enum_name : Ident
  arms : List Arm
  errs : List Diag
  deriving DecidableEq, Repr

/-- Model of `syn::Data`: the shape of the item being derived. -/
inductive Data where
  | enumData (variants : List Variant)
  | structData
  | unionData
  deriving DecidableEq, Repr

/-- Model of `syn::DeriveInput`. -/
structure DeriveInput where
  ident : Ident
  data : Data
  deriving DecidableEq, Repr

/-- Embedding of `unwrap_enum`: panics unless the input is an enum. -/
def unwrap_enum : Data → Except String (List Variant)
  | .enumData vs => .ok vs
  | _ => .error "can only implement error level on enums"

/-- The arms emitted for the three valid classes, in the emitted order:
all marked-no-payload arms, then all marked-with-payload arms, then all
delegating arms. -/
def genArms (r : ExtractOut) : List Arm :=
  r.marked_no_inn.map (fun m => .fixed m.variant_id false m.level.to_tokens m.variant_id.span)
    ++ r.marked_w_inn.map (fun m => .fixed m.variant_id true m.level.to_tokens m.variant_id.span)
    ++ r.unmarked.map (fun u => .delegate u.variant_id u.inner_span)

/-- Embedding of ` impl_error_level_macro`: unwrap the enum, extract the
classified variants, and emit the impl with its arms and trailing
diagnostics. -/
def impl_error_level_macro (ast : DeriveInput) : Except String GenImpl := do
  let vs ← unwrap_enum ast.data
  let r ← extract_variants vs
  .ok ⟨ast.ident, genArms r, r.errs⟩

/-- A runtime value of the derived enum: a variant name and an optional
payload value. -/
inductive RtValue where
  | mk (variant : String) (payload : Option RtValue)

/-- The variant name of a runtime value. -/
def RtValue.variantName : RtValue → String
  | .mk n _ => n

/-- The payload of a runtime value. -/
def RtValue.payload : RtValue → Option RtValue
  | .mk _ p => p

/-- The runtime result of a fixed-level arm body: `none` when the body is a
`compile_error!` (the build fails, so no runtime value exists). -/
def levelExprValue : GenLevelExpr → Option (Option LogLevel)
  | .noReport => some none
  | .someLevel l => some (some l)
  | .compileErr _ _ => none

/-- Runtime semantics of the generated `match self`: `f` is the
`error_level` method of the payload's own type (used by delegating arms);
the outer `Option` is `none` when no arm matches or the matched body does
not evaluate. -/
def eval_arms (f : RtValue → Option LogLevel) : List Arm → RtValue → Option (Option LogLevel)
  | [], _ => none
  | .fixed id _ lvl _ :: rest, v =>
      if id.name = v.variantName then levelExprValue lvl else eval_arms f rest v
  | .delegate id _ :: rest, v =>
      if id.name = v.variantName then
        match v.payload with
        | some p => some (f p)
        | none => none
      else eval_arms f rest v

/-- A call into the logging sink: a level and the logged message. -/
structure LogCall where
  level : LogLevel
  message : String
  deriving DecidableEq, Repr

/-- Embedding of `ErrorLevel::log_error` from `src/lib.rs`, applied to the
result of `self.error_level()` and the debug representation of `self`:
`None` means no sink call; `Some(level)` logs the debug representation at
that level. -/
def log_error (error_level : Option LogLevel) (debug_repr : String) : Option LogCall :=
  match error_level with
  | none => none
  | some .trace => some ⟨.trace, debug_repr⟩
  | some .debug => some ⟨.debug, debug_repr⟩
  | some .info => some ⟨.info, debug_repr⟩
  | some .warn => some ⟨.warn, debug_repr⟩
  | some .error => some ⟨.error, debug_repr⟩

/-- What a single variant contributes to `marked_no_inn`. -/
def contrib_m1 (v : Variant) : Option Marked :=
  match classify_variant v with
  | .ok (.explicitNoPayload l) => some ⟨l, v.ident⟩
  | _ => none

/-- What a single variant contributes to `marked_w_inn`. -/
def contrib_m2 (v : Variant) : Option Marked :=
  match classify_variant v with
  | .ok (.explicitWithPayload l) => some ⟨l, v.ident⟩
  | _ => none

/-- What a single variant contributes to `unmarked`. -/
def contrib_u (v : Variant) : Option UnMarked :=
  match classify_variant v with
  | .ok (.delegated sp) => some ⟨sp, v.ident⟩
  | _ => none

/-- What a single variant contributes to `errs`. -/
def contrib_err (v : Variant) : Option Diag :=
  match classify_variant v with
  | .ok (.invalid d) => some d
  | _ => none

/-- Is a parsed attribute meta the kind `with_log_level` consumes: a
`Meta::List` whose path is the ident `report`?  (Everything else is skipped
by the attribute loop.) -/
def is_report_list : Meta → Bool
  | .list p _ => has_level_path p
  | _ => false

/-- Modelled from the spec's amended eligibility rule: a payload shape is
eligible exactly when it is a path type (a simple name, a qualified path,
or a generic instantiation — any path), optionally behind one reference
applied to the referenced type. -/
def eligible_shape : SynType → Bool
  | .path _ => true
  | .reference (.path _) _ => true
  | .reference _ _ => false
  | .tuple _ => false
  | .array _ => false
  | .other _ => false

/-- A single-segment path (an unqualified type or attribute name). -/
def simple_path (s : String) (lo hi : Nat) : SynPath :=
  ⟨false, [⟨⟨s, ⟨lo, hi⟩⟩, 0, ⟨lo, hi⟩⟩]⟩

/-- The path of a `#[report(..)]` attribute. -/
def report_path : SynPath := simple_path "report" 1 7

/-- A `#[report(kw)]` attribute with the keyword at the given range. -/
def report_attr (kw : String) (lo hi : Nat) : Meta :=
  Meta.list report_path [.meta (simple_path kw lo hi)]

/-- `#[report(warn)] ErrorA` — annotated, no payload. -/
def warn_variant : Variant :=
  ⟨⟨"ErrorA", ⟨20, 26⟩⟩, [report_attr "warn" 10 14], .unit, ⟨20, 26⟩⟩

/-- `ErrorC` — no annotation, no payload. -/
def missing_variant : Variant :=
  ⟨⟨"ErrorC", ⟨30, 36⟩⟩, [], .unit, ⟨30, 36⟩⟩

/-- `ErrorT((String, String))` — no annotation, tuple payload. -/
def tuple_payload_variant : Variant :=
  ⟨⟨"ErrorT", ⟨40, 46⟩⟩, [], .unnamed [.tuple ⟨47, 63⟩], ⟨40, 63⟩⟩

/-- `ErrorD(OuterError)` — no annotation, eligible named payload. -/
def deleg_variant : Variant :=
  ⟨⟨"ErrorD", ⟨70, 76⟩⟩, [], .unnamed [.path (simple_path "OuterError" 77 87)], ⟨70, 88⟩⟩

/-- `#[report(info)] ErrorB((String, String))` — annotated, with a payload
that is not even eligible. -/
def info_payload_variant : Variant :=
  ⟨⟨"ErrorB", ⟨90, 96⟩⟩, [report_attr "info" 91 95], .unnamed [.tuple ⟨97, 113⟩], ⟨90, 113⟩⟩

/-- `#[report()] ErrorE` — report attribute with an empty argument list. -/
def empty_report_variant : Variant :=
  ⟨⟨"ErrorE", ⟨120, 126⟩⟩, [Meta.list report_path []], .unit, ⟨120, 126⟩⟩

/-- `#[report("warn")] ErrorF` — report attribute whose argument is a
literal. -/
def lit_report_variant : Variant :=
  ⟨⟨"ErrorF", ⟨130, 136⟩⟩, [Meta.list report_path [.lit ⟨131, 137⟩]], .unit, ⟨130, 136⟩⟩

/-- A generic instantiation with two type arguments,
`HashMap<String, String>`: in `syn` this is a `Type::Path` whose single
segment carries angle-bracketed arguments. -/
def generic_payload_ty : SynType :=
  .path ⟨false, [⟨⟨"HashMap", ⟨140, 147⟩⟩, 2, ⟨140, 163⟩⟩]⟩

/-- The enum `{ ErrorD(OuterError), #[report(warn)] ErrorA }`: a delegating
variant declared before an annotated one. -/
def deleg_first_input : DeriveInput :=
  ⟨⟨"CustomError", ⟨0, 11⟩⟩, .enumData [deleg_variant, warn_variant]⟩

/-- The enum `{ ErrorC, #[report(warn)] ErrorA }`: an invalid variant then a
marked one. -/
def invalid_first_vs : List Variant := [missing_variant, warn_variant]

/-- The variants `{ ErrorC, ErrorT((String, String)), #[report(warn)] ErrorA }`:
two invalid variants before a valid one. -/
def two_invalid_vs : List Variant :=
  [missing_variant, tuple_payload_variant, warn_variant]

/-- The result of `extract_variants` on `invalid_first_vs`. -/
def invalid_first_out : ExtractOut :=
  ⟨[⟨Level.parsed .warn, ⟨"ErrorA", ⟨20, 26⟩⟩⟩], [], [],
   [⟨⟨30, 36⟩, missing_msg⟩]⟩

/-- The generated impl for `deleg_first_input`: note the annotated arm is
emitted before the delegating arm even though `ErrorD` is declared first. -/
def deleg_first_gen : GenImpl :=
  ⟨⟨"CustomError", ⟨0, 11⟩⟩,
   [Arm.fixed ⟨"ErrorA", ⟨20, 26⟩⟩ false (GenLevelExpr.someLevel .warn) ⟨20, 26⟩,
    Arm.delegate ⟨"ErrorD", ⟨70, 76⟩⟩ ⟨77, 87⟩],
   []⟩

theorem extract_variants_eq (vs : List Variant)
    (h : ∀ v ∈ vs, (classify_variant v).isOk = true) :
    extract_variants vs =
      .ok ⟨vs.filterMap contrib_m1, vs.filterMap contrib_m2,
           vs.filterMap contrib_u, vs.filterMap contrib_err⟩ := by
  induction vs with
  | nil => rfl
  | cons v rest ih =>
    have hv := h v (List.mem_cons_self v rest)
    have hrest : ∀ w ∈ rest, (classify_variant w).isOk = true :=
      fun w hw => h w (List.mem_cons_of_mem v hw)
    match hc : classify_variant v with
    | .error e => rw [hc] at hv; simp [Except.isOk, Except.toBool] at hv
    | .ok c =>
      simp only [extract_variants, bind, Except.bind, hc, ih hrest]
      cases c <;>
        simp [consClass, List.filterMap_cons, contrib_m1, contrib_m2,
          contrib_u, contrib_err, hc]

theorem extract_variants_ok_classify (vs : List Variant) (r : ExtractOut)
    (h : extract_variants vs = .ok r) :
    ∀ v ∈ vs, (classify_variant v).isOk = true := by
  induction vs generalizing r with
  | nil => intro v hv; cases hv
  | cons w rest ih =>
    intro v hv
    simp only [extract_variants, bind, Except.bind] at h
    match hc : classify_variant w with
    | .error e => rw [hc] at h; cases h
    | .ok c =>
      rw [hc] at h
      match hr : extract_variants rest with
      | .error e => rw [hr] at h; cases h
      | .ok r2 =>
        cases hv with
        | head => simp [Except.isOk, Except.toBool, hc]
        | tail _ hv2 => exact ih r2 hr v hv2

theorem extract_variants_char (vs : List Variant) (r : ExtractOut)
    (h : extract_variants vs = .ok r) :
    r = ⟨vs.filterMap contrib_m1, vs.filterMap contrib_m2,
         vs.filterMap contrib_u, vs.filterMap contrib_err⟩ := by
  have := extract_variants_eq vs (extract_variants_ok_classify vs r h)
  rw [h] at this
  exact Except.ok.inj this

theorem contrib_m1_some (w : Variant) (m : Marked) (h : contrib_m1 w = some m) :
    m.variant_id = w.ident ∧ classify_variant w = .ok (.explicitNoPayload m.level) := by
  unfold contrib_m1 at h
  split at h
  case _ l heq => cases h; exact ⟨rfl, heq⟩
  case _ => cases h

theorem contrib_m2_some (w : Variant) (m : Marked) (h : contrib_m2 w = some m) :
    m.variant_id = w.ident ∧ classify_variant w = .ok (.explicitWithPayload m.level) := by
  unfold contrib_m2 at h
  split at h
  case _ l heq => cases h; exact ⟨rfl, heq⟩
  case _ => cases h

theorem contrib_u_some (w : Variant) (u : UnMarked) (h : contrib_u w = some u) :
    u.variant_id = w.ident ∧ classify_variant w = .ok (.delegated u.inner_span) := by
  unfold contrib_u at h
  split at h
  case _ sp heq => cases h; exact ⟨rfl, heq⟩
  case _ => cases h

theorem eval_arms_append_skip (f : RtValue → Option LogLevel)
    (l1 l2 : List Arm) (v : RtValue)
    (h : ∀ a ∈ l1, a.name ≠ v.variantName) :
    eval_arms f (l1 ++ l2) v = eval_arms f l2 v := by
  induction l1 with
  | nil => rfl
  | cons a rest ih =>
    have ha := h a (List.mem_cons_self a rest)
    have hrest : ∀ b ∈ rest, b.name ≠ v.variantName :=
      fun b hb => h b (List.mem_cons_of_mem a hb)
    cases a with
    | fixed id hp lvl sp =>
      simp only [Arm.name] at ha
      simp only [List.cons_append, eval_arms, if_neg ha]
      exact ih hrest
    | delegate id sp =>
      simp only [Arm.name] at ha
      simp only [List.cons_append, eval_arms, if_neg ha]
      exact ih hrest

theorem with_log_level_loop_skip (m : Meta) (rest : List Meta)
    (h : is_report_list m = false) :
    with_log_level_loop (m :: rest) = with_log_level_loop rest := by
  cases m with
  | path p => rfl
  | nameValue p => rfl
  | list p nested =>
    simp only [is_report_list] at h
    simp [with_log_level_loop, h]

theorem with_log_level_loop_filter (l : List Meta) :
    with_log_level_loop l = with_log_level_loop (l.filter is_report_list) := by
  induction l with
  | nil => rfl
  | cons m rest ih =>
    cases hm : is_report_list m
    case false =>
      rw [with_log_level_loop_skip m rest hm, ih]
      simp [List.filter_cons, hm]
    case true =>
      simp only [List.filter_cons, hm, if_pos]
      cases m with
      | path p => simp [is_report_list] at hm
      | nameValue p => simp [is_report_list] at hm
      | list p nested =>
        have hp : has_level_path p = true := by simpa [is_report_list] using hm
        simp [with_log_level_loop, hp]

/-- C1: the Level Parser maps exactly the six case-sensitive keywords
`no, trace, debug, info, warn, error` to Suppressed (`None`), `Trace`,
`Debug`, `Info`, `Warn`, `Error` respectively; any other keyword yields a
`compile_error!` anchored to the keyword's own span whose message
enumerates the legal keywords — never a silent default severity. -/
theorem c1_level_keywords :
    (∀ sp : Span,
      Level.from_ident ⟨"no", sp⟩ = Level.parsed .no ∧
      Level.from_ident ⟨"trace", sp⟩ = Level.parsed .trace ∧
      Level.from_ident ⟨"debug", sp⟩ = Level.parsed .debug ∧
      Level.from_ident ⟨"info", sp⟩ = Level.parsed .info ∧
      Level.from_ident ⟨"warn", sp⟩ = Level.parsed .warn ∧
      Level.from_ident ⟨"error", sp⟩ = Level.parsed .error) ∧
    ((Level.parsed .no).to_tokens = GenLevelExpr.noReport ∧
      (Level.parsed .trace).to_tokens = GenLevelExpr.someLevel .trace ∧
      (Level.parsed .debug).to_tokens = GenLevelExpr.someLevel .debug ∧
      (Level.parsed .info).to_tokens = GenLevelExpr.someLevel .info ∧
      (Level.parsed .warn).to_tokens = GenLevelExpr.someLevel .warn ∧
      (Level.parsed .error).to_tokens = GenLevelExpr.someLevel .error) ∧
    (∀ id : Ident,
      id.name ∉ (["no", "trace", "debug", "info", "warn", "error"] : List String) →
      Level.from_ident id = Level.error id.span ∧
      (Level.from_ident id).to_tokens = GenLevelExpr.compileErr id.span invalid_level_msg) ∧
    (∀ k ∈ (["no", "trace", "debug", "info", "warn", "error"] : List String),
      k.data <:+: invalid_level_msg.data) := by
  refine ⟨fun sp => ⟨rfl, rfl, rfl, rfl, rfl, rfl⟩,
    ⟨rfl, rfl, rfl, rfl, rfl, rfl⟩, ?_, by decide⟩
  intro id h
  simp only [List.mem_cons, List.not_mem_nil, or_false, not_or] at h
  have hfi : Level.from_ident id = Level.error id.span := by
    unfold Level.from_ident
    split <;> simp_all
  exact ⟨hfi, by rw [hfi]; rfl⟩

/-- Witness for C1 at the unknown keyword `loud`. -/
theorem c1_witness :
    Level.from_ident ⟨"loud", ⟨3, 7⟩⟩ = Level.error ⟨3, 7⟩ ∧
    (Level.from_ident ⟨"loud", ⟨3, 7⟩⟩).to_tokens
      = GenLevelExpr.compileErr ⟨3, 7⟩ invalid_level_msg :=
  c1_level_keywords.2.2.1 ⟨"loud", ⟨3, 7⟩⟩ (by decide)

/-- C2: a variant with an annotation and a payload is classified
`ExplicitWithPayload` with the annotation's level, for every payload type
`ty` whatsoever (the shape validator is never consulted), and its generated
arm evaluates to the fixed level for every runtime payload and every inner
classification function — it never delegates. -/
theorem c2_annotation_overrides_payload :
    ∀ (v : Variant) (lvl : Level) (ty : SynType),
      with_log_level v = .ok (some lvl) →
      has_inner v = some ty →
      classify_variant v = .ok (.explicitWithPayload lvl) ∧
      ∀ (f : RtValue → Option LogLevel) (q : Option RtValue) (rest : List Arm) (sp : Span),
        eval_arms f (Arm.fixed v.ident true lvl.to_tokens sp :: rest)
          (RtValue.mk v.ident.name q) = levelExprValue lvl.to_tokens := by
  intro v lvl ty h1 h2
  refine ⟨?_, ?_⟩
  · simp [classify_variant, bind, Except.bind, h1, h2]
  · intro f q rest sp
    simp [eval_arms, RtValue.variantName]

/-- Witness for C2: `#[report(info)] ErrorB((String, String))` — an
ineligible payload — is classified Info and its arm yields Info even when
the inner classification function would say Error. -/
theorem c2_witness :
    classify_variant info_payload_variant
      = .ok (.explicitWithPayload (Level.parsed .info)) ∧
    eval_arms (fun _ => some LogLevel.error)
      [Arm.fixed ⟨"ErrorB", ⟨90, 96⟩⟩ true (Level.parsed .info).to_tokens ⟨90, 96⟩]
      (RtValue.mk "ErrorB" (some (RtValue.mk "Inner" none)))
      = some (some LogLevel.info) := by
  have h := c2_annotation_overrides_payload info_payload_variant (Level.parsed .info)
    (.tuple ⟨97, 113⟩) rfl rfl
  exact ⟨h.1, h.2 (fun _ => some LogLevel.error) (some (RtValue.mk "Inner" none)) [] ⟨90, 96⟩⟩

/-- C3 counterexample: `HashMap<String, String>` is a generic instantiation
with two type arguments, which the claim says must be Ineligible; but it is
a `Type::Path`, so `is_valid_inner` accepts it as eligible (`Ok`, anchored
at the call site because `get_ident` fails on a segment with arguments). -/
theorem c3_counterexample :
    is_valid_inner generic_payload_ty = .ok call_site := rfl

/-- C3 (amended): `is_valid_inner` returns eligible exactly for path types
— simple names, namespace-qualified paths, and also generic instantiations
— optionally behind a single reference (the rule applied to the referenced
type); tuple types, array types, other shapes, and references to non-path
types are ineligible. -/
theorem c3_eligibility :
    ∀ ty : SynType, (is_valid_inner ty).isOk = eligible_shape ty := by
  intro ty
  cases ty with
  | path p => rfl
  | reference elem sp => cases elem <;> rfl
  | tuple sp => rfl
  | array sp => rfl
  | other sp => rfl

/-- C7: producing a diagnostic never aborts the pass — a classified variant
(including an invalid one) merely prepends its contribution to the result
of processing all remaining variants; and whenever no variant panics, the
whole list is processed and the accumulators collect the contribution of
every variant (maximum-diagnostics reporting). -/
theorem c7_diagnostics_never_abort :
    (∀ (v : Variant) (rest : List Variant) (c : Classification),
        classify_variant v = .ok c →
        extract_variants (v :: rest) = (extract_variants rest).map (consClass v c)) ∧
    (∀ vs : List Variant, (∀ v ∈ vs, (classify_variant v).isOk = true) →
        extract_variants vs =
          .ok ⟨vs.filterMap contrib_m1, vs.filterMap contrib_m2,
               vs.filterMap contrib_u, vs.filterMap contrib_err⟩) := by
  constructor
  · intro v rest c hc
    simp only [extract_variants, bind, Except.bind, hc]
    cases hr : extract_variants rest <;> simp [Except.map]
  · exact extract_variants_eq

/-- Witness for C7: an enum whose first two variants are both invalid still
has its third, valid variant processed and both diagnostics collected. -/
theorem c7_witness :
    extract_variants two_invalid_vs =
      .ok ⟨[⟨Level.parsed .warn, ⟨"ErrorA", ⟨20, 26⟩⟩⟩], [], [],
           [⟨⟨30, 36⟩, missing_msg⟩, ⟨⟨47, 63⟩, ineligible_msg⟩]⟩ :=
  c7_diagnostics_never_abort.2 two_invalid_vs (by decide)

/-- C8: `log_error` forwards the instance's debug representation to the
sink at exactly the severity returned by `error_level`; a `None`
(suppressed) result produces no sink call at all. -/
theorem c8_report_sink :
    (∀ dbg : String, log_error none dbg = none) ∧
    (∀ (l : LogLevel) (dbg : String), log_error (some l) dbg = some ⟨l, dbg⟩) := by
  refine ⟨fun dbg => rfl, fun l dbg => ?_⟩
  cases l <;> rfl

/-- C9: attributes that are not a `report(...)` list are skipped silently
(no diagnostic), the attribute scan sees only the `report` lists (so a
variant with only foreign attributes is classified exactly as if it had no
annotation), and when several `report` attributes are present the first in
attribute order wins — the rest are never read. -/
theorem c9_foreign_attrs_skipped :
    (∀ (m : Meta) (rest : List Meta), is_report_list m = false →
        with_log_level_loop (m :: rest) = with_log_level_loop rest) ∧
    (∀ v : Variant,
        with_log_level v = with_log_level_loop (v.attrs.filter is_report_list)) ∧
    (∀ v : Variant, v.attrs.filter is_report_list = [] →
        classify_variant v = classify_variant { v with attrs := [] }) ∧
    (∀ (p : SynPath) (nested : List NestedMetaShape) (rest : List Meta),
        has_level_path p = true →
        with_log_level_loop (Meta.list p nested :: rest)
          = with_log_level_loop [Meta.list p nested]) := by
  refine ⟨with_log_level_loop_skip,
    fun v => with_log_level_loop_filter v.attrs, ?_, ?_⟩
  · intro v hf
    have h1 : with_log_level v = .ok none := by
      have := with_log_level_loop_filter v.attrs
      rw [hf] at this
      exact this
    have h2 : with_log_level { v with attrs := ([] : List Meta) } = .ok none := rfl
    simp [classify_variant, bind, Except.bind, h1, h2, has_inner]
  · intro p nested rest hp
    simp [with_log_level_loop, hp]

/-- Witness for C9: a `#[level(Warn)]`-style attribute is skipped, and of
two `report` attributes the first (`info`) wins over the second (`warn`). -/
theorem c9_witness :
    with_log_level_loop [Meta.list (simple_path "level" 1 6) [.meta (simple_path "Warn" 7 11)]]
      = with_log_level_loop [] ∧
    with_log_level_loop [report_attr "info" 91 95, report_attr "warn" 10 14]
      = with_log_level_loop [report_attr "info" 91 95] := by
  constructor
  · exact c9_foreign_attrs_skipped.1 _ [] (by decide)
  · exact c9_foreign_attrs_skipped.2.2.2 report_path [.meta (simple_path "info" 91 95)]
      [report_attr "warn" 10 14] (by decide)

/-- C10: the generator is not total — `#[report()]` panics unwrapping the
first nested argument, `#[report("warn")]` (a literal argument) panics in
`unwrap_meta`, and a non-enum input panics in `unwrap_enum`; each aborts
the whole generation with no diagnostic and no output. -/
theorem c10_generator_panics :
    impl_error_level_macro ⟨⟨"CustomError", ⟨0, 11⟩⟩, .enumData [empty_report_variant]⟩
        = .error "called `Option::unwrap()` on a `None` value" ∧
    impl_error_level_macro ⟨⟨"CustomError", ⟨0, 11⟩⟩, .enumData [lit_report_variant]⟩
        = .error "nested argument list should not be a rust literal but a structured meta item" ∧
    impl_error_level_macro ⟨⟨"CustomError", ⟨0, 11⟩⟩, .structData⟩
        = .error "can only implement error level on enums" :=
  ⟨rfl, rfl, rfl⟩

theorem impl_ok_inversion (ast : DeriveInput) (vs : List Variant) (gen : GenImpl)
    (hd : ast.data = .enumData vs) (h : impl_error_level_macro ast = .ok gen) :
    ∃ r, extract_variants vs = .ok r ∧ gen = ⟨ast.ident, genArms r, r.errs⟩ := by
  unfold impl_error_level_macro at h
  rw [hd] at h
  simp only [unwrap_enum, bind, Except.bind] at h
  match hr : extract_variants vs with
  | .error e => rw [hr] at h; cases h
  | .ok r =>
    rw [hr] at h
    simp only at h
    exact ⟨r, rfl, (Except.ok.inj h).symm⟩

/-- C5: every variant of a successfully extracted enum resolves to exactly
one classification; an invalid variant contributes exactly one diagnostic
to `errs` and nothing to any of the three arm lists; and the emitted impl
carries exactly those arms and those diagnostics. -/
theorem c5_invalid_one_diag_no_arm :
    ∀ (vs : List Variant) (r : ExtractOut),
      extract_variants vs = .ok r →
      (∀ v ∈ vs, ∃! c, classify_variant v = .ok c) ∧
      (∀ (ast : DeriveInput) (gen : GenImpl), ast.data = .enumData vs →
          impl_error_level_macro ast = .ok gen →
          gen.arms = genArms r ∧ gen.errs = r.errs) ∧
      (∀ (l1 l2 : List Variant) (v : Variant) (d : Diag),
        vs = l1 ++ v :: l2 →
        classify_variant v = .ok (.invalid d) →
        r.errs = l1.filterMap contrib_err ++ d :: l2.filterMap contrib_err ∧
        r.marked_no_inn = l1.filterMap contrib_m1 ++ l2.filterMap contrib_m1 ∧
        r.marked_w_inn = l1.filterMap contrib_m2 ++ l2.filterMap contrib_m2 ∧
        r.unmarked = l1.filterMap contrib_u ++ l2.filterMap contrib_u) := by
  intro vs r hr
  have hchar := extract_variants_char vs r hr
  have hok := extract_variants_ok_classify vs r hr
  refine ⟨?_, ?_, ?_⟩
  · intro v hv
    have h := hok v hv
    match hc : classify_variant v with
    | .error e => rw [hc] at h; simp [Except.isOk, Except.toBool] at h
    | .ok c =>
      exact ⟨c, rfl, fun c' h' => (Except.ok.inj h').symm⟩
  · intro ast gen hd himpl
    obtain ⟨r2, hr2, hgen⟩ := impl_ok_inversion ast vs gen hd himpl
    rw [hr] at hr2
    cases Except.ok.inj hr2
    subst hgen
    exact ⟨rfl, rfl⟩
  · intro l1 l2 v d hsplit hc
    subst hsplit
    have hce : contrib_err v = some d := by simp [contrib_err, hc]
    have hc1 : contrib_m1 v = none := by simp [contrib_m1, hc]
    have hc2 : contrib_m2 v = none := by simp [contrib_m2, hc]
    have hcu : contrib_u v = none := by simp [contrib_u, hc]
    rw [hchar]
    refine ⟨?_, ?_, ?_, ?_⟩ <;>
      simp [List.filterMap_append, List.filterMap_cons, hce, hc1, hc2, hcu]

/-- Witness for C5: in `{ ErrorC, #[report(warn)] ErrorA }` the invalid
`ErrorC` yields exactly one diagnostic and no arm. -/
theorem c5_witness :
    invalid_first_out.errs = [⟨⟨30, 36⟩, missing_msg⟩] ∧
    invalid_first_out.marked_no_inn = [⟨Level.parsed .warn, ⟨"ErrorA", ⟨20, 26⟩⟩⟩] ∧
    invalid_first_out.marked_w_inn = [] ∧
    invalid_first_out.unmarked = [] := by
  have h := c5_invalid_one_diag_no_arm invalid_first_vs invalid_first_out rfl
  have h2 := h.2.2 [] [warn_variant] missing_variant ⟨⟨30, 36⟩, missing_msg⟩ rfl rfl
  exact ⟨h2.1, h2.2.1, h2.2.2.1, h2.2.2.2⟩

/-- C6 counterexample: in `{ ErrorD(OuterError), #[report(warn)] ErrorA }`
the variants are declared in the order `ErrorD, ErrorA`, but the emitted
arms are ordered `ErrorA, ErrorD` — grouped by classification, not in
declaration order as the claim states. -/
theorem c6_counterexample :
    Except.map (fun g => g.arms.map Arm.name) ( impl_error_level_macro deleg_first_input)
      = .ok ["ErrorA", "ErrorD"] ∧
    [deleg_variant, warn_variant].map (fun v => v.ident.name) = ["ErrorD", "ErrorA"] :=
  ⟨rfl, rfl⟩

/-- C6 (amended): classification is strictly variant-local — each variant's
contribution is a function of that variant alone — and the generated arms
are grouped by classification kind (explicit without payload, explicit with
payload, delegated), each group in declaration order, rather than mirroring
the overall declaration order. -/
theorem c6_variant_local_grouped :
    ∀ (ast : DeriveInput) (vs : List Variant) (gen : GenImpl),
      ast.data = .enumData vs →
      impl_error_level_macro ast = .ok gen →
      gen.arms =
        (vs.filterMap contrib_m1).map
            (fun m => Arm.fixed m.variant_id false m.level.to_tokens m.variant_id.span)
          ++ (vs.filterMap contrib_m2).map
            (fun m => Arm.fixed m.variant_id true m.level.to_tokens m.variant_id.span)
          ++ (vs.filterMap contrib_u).map
            (fun u => Arm.delegate u.variant_id u.inner_span) ∧
      gen.errs = vs.filterMap contrib_err := by
  intro ast vs gen hd himpl
  obtain ⟨r, hr, hgen⟩ := impl_ok_inversion ast vs gen hd himpl
  have hchar := extract_variants_char vs r hr
  subst hgen
  rw [hchar]
  exact ⟨rfl, rfl⟩

/-- Witness for C6 at `deleg_first_input`. -/
theorem c6_witness :
    deleg_first_gen.arms
      = [Arm.fixed ⟨"ErrorA", ⟨20, 26⟩⟩ false (GenLevelExpr.someLevel .warn) ⟨20, 26⟩,
         Arm.delegate ⟨"ErrorD", ⟨70, 76⟩⟩ ⟨77, 87⟩] ∧
    deleg_first_gen.errs = [] :=
  c6_variant_local_grouped deleg_first_input [deleg_variant, warn_variant]
    deleg_first_gen rfl rfl

/-- C4: for a variant with no annotation and an eligible payload, in an
enum with pairwise-distinct variant names, the generated dispatch evaluated
at that variant returns exactly the payload's own classification result
`f p`, unchanged, for every inner classification function `f` (hence
severity propagates transparently through delegation at any nesting
depth). -/
theorem c4_delegation_transparent :
    ∀ (ast : DeriveInput) (vs : List Variant) (gen : GenImpl) (v : Variant) (sp : Span),
      ast.data = .enumData vs →
      vs.Pairwise (fun a b => a.ident.name ≠ b.ident.name) →
      impl_error_level_macro ast = .ok gen →
      v ∈ vs →
      classify_variant v = .ok (.delegated sp) →
      ∀ (f : RtValue → Option LogLevel) (p : RtValue),
        eval_arms f gen.arms (RtValue.mk v.ident.name (some p)) = some (f p) := by
  intro ast vs gen v sp hd hpw himpl hv hc f p
  obtain ⟨r, hr, hgen⟩ := impl_ok_inversion ast vs gen hd himpl
  have hchar := extract_variants_char vs r hr
  subst hgen
  obtain ⟨l1, l2, hsplit⟩ := List.append_of_mem hv
  subst hsplit
  rw [List.pairwise_append] at hpw
  obtain ⟨hp1, hp2, hp12⟩ := hpw
  rw [List.pairwise_cons] at hp2
  obtain ⟨hvl2, hp2x⟩ := hp2
  have hl1v : ∀ w ∈ l1, w.ident.name ≠ v.ident.name :=
    fun w hw => hp12 w hw v (List.mem_cons_self v l2)
  have hl2v : ∀ w ∈ l2, w.ident.name ≠ v.ident.name :=
    fun w hw hEq => hvl2 w hw hEq.symm
  have hA1 : ∀ (l : List Variant), (∀ w ∈ l, w.ident.name ≠ v.ident.name) →
      ∀ a ∈ (l.filterMap contrib_m1).map
        (fun m => Arm.fixed m.variant_id false m.level.to_tokens m.variant_id.span),
        a.name ≠ v.ident.name := by
    intro l hl a ha
    rw [List.mem_map] at ha
    obtain ⟨m, hm, rfl⟩ := ha
    rw [List.mem_filterMap] at hm
    obtain ⟨w, hw, hmw⟩ := hm
    have hid := (contrib_m1_some w m hmw).1
    simp only [Arm.name, hid]
    exact hl w hw
  have hA2 : ∀ (l : List Variant), (∀ w ∈ l, w.ident.name ≠ v.ident.name) →
      ∀ a ∈ (l.filterMap contrib_m2).map
        (fun m => Arm.fixed m.variant_id true m.level.to_tokens m.variant_id.span),
        a.name ≠ v.ident.name := by
    intro l hl a ha
    rw [List.mem_map] at ha
    obtain ⟨m, hm, rfl⟩ := ha
    rw [List.mem_filterMap] at hm
    obtain ⟨w, hw, hmw⟩ := hm
    have hid := (contrib_m2_some w m hmw).1
    simp only [Arm.name, hid]
    exact hl w hw
  have hAD : ∀ (l : List Variant), (∀ w ∈ l, w.ident.name ≠ v.ident.name) →
      ∀ a ∈ (l.filterMap contrib_u).map
        (fun u => Arm.delegate u.variant_id u.inner_span),
        a.name ≠ v.ident.name := by
    intro l hl a ha
    rw [List.mem_map] at ha
    obtain ⟨u, hu, rfl⟩ := ha
    rw [List.mem_filterMap] at hu
    obtain ⟨w, hw, huw⟩ := hu
    have hid := (contrib_u_some w u huw).1
    simp only [Arm.name, hid]
    exact hl w hw
  have hcu : contrib_u v = some ⟨sp, v.ident⟩ := by simp [contrib_u, hc]
  have hc1 : contrib_m1 v = none := by simp [contrib_m1, hc]
  have hc2 : contrib_m2 v = none := by simp [contrib_m2, hc]
  rw [hchar]
  show eval_arms f (genArms _) _ = _
  rw [genArms]
  simp only [List.filterMap_append, List.filterMap_cons, hcu, hc1, hc2,
    List.map_append, List.map_cons, List.append_assoc]
  rw [eval_arms_append_skip f _ _ _ (hA1 l1 hl1v),
    eval_arms_append_skip f _ _ _ (hA1 l2 hl2v),
    eval_arms_append_skip f _ _ _ (hA2 l1 hl1v),
    eval_arms_append_skip f _ _ _ (hA2 l2 hl2v),
    eval_arms_append_skip f _ _ _ (hAD l1 hl1v)]
  simp [eval_arms, RtValue.variantName, RtValue.payload]

/-- Witness for C4: in `{ ErrorD(OuterError), #[report(warn)] ErrorA }`,
dispatch on `ErrorD(inner)` returns exactly the inner classification. -/
theorem c4_witness :
    eval_arms (fun _ => some LogLevel.info) deleg_first_gen.arms
      (RtValue.mk "ErrorD" (some (RtValue.mk "Error0" none)))
      = some (some LogLevel.info) := by
  have h := c4_delegation_transparent deleg_first_input [deleg_variant, warn_variant]
    deleg_first_gen deleg_variant ⟨77, 87⟩ rfl (by decide) rfl
    (List.mem_cons_self deleg_variant [warn_variant]) rfl
  exact h (fun _ => some LogLevel.info) (RtValue.mk "Error0" none)

end ErrLevel
